import Mathlib

/-!
Verification development for the planet-simulator N-body engine
(`simulator.js`).

The engine is shallowly embedded over exact rational arithmetic:
every numeric field of the JavaScript code becomes a `ℚ`, and the
irrational numeric primitives of the host (`Math.sqrt` / `Math.hypot`,
`Math.ceil ∘ Math.cbrt`) together with the randomized merge-shout
selector (`_jojoShout`, which calls `Math.random`) are abstracted into
a parameter record `Prims`; all theorems hold for every interpretation
of those primitives.  The in-place mutation loops of the source are
rendered as functional passes that compute the same values in the same
order: the pairwise force loop accumulates into per-index tables that
are written back to the body list, exactly mirroring `bi.ax += …` /
`bj.ax -= …` on fields that the loop itself never reads.
-/

namespace PlanetSim

/-- Gravitational constant `G = 6.674e-11` (m³ kg⁻¹ s⁻²), from `simulator.js`. -/
def G : ℚ := 6674 / 100000000000000

/-- Astronomical unit `AU = 1.496e11` metres, from `simulator.js`. -/
def AU : ℚ := 1496 * 100000000

/-- Solar mass `SOLAR_MASS = 1.989e30` kg, from `simulator.js`. -/
def SOLAR_MASS : ℚ := 1989 * 10 ^ 27

/-- The host-environment numeric primitives the engine calls but which
have no exact rational meaning: `Math.sqrt` (also used through
`Math.hypot`), the display-radius combination `Math.ceil ∘ Math.cbrt`,
and the merge-shout selector `_jojoShout` (randomized in the source).
Every theorem below is proved for an arbitrary interpretation. -/
structure Prims where
  sqrt : ℚ → ℚ
  ceilCbrt : ℚ → ℚ
  shout : String → String → String

/-- One body of the simulation: the fields of the `Body` class of
`simulator.js` (JS `_vxh`/`_vyh`/`_leapReady` are `vxh`/`vyh`/`leapReady`). -/
structure Body where
  id : ℕ
  name : String
  x : ℚ
  y : ℚ
  vx : ℚ
  vy : ℚ
  mass : ℚ
  radius : ℚ
  color : String
  ax : ℚ
  ay : ℚ
  vxh : ℚ
  vyh : ℚ
  leapReady : Bool
  trail : List (ℚ × ℚ)
  forceMag : ℚ
  physRadius : ℚ
  fx_ext : ℚ
  fy_ext : ℚ
  engineOn : Bool
  jojo : Bool
deriving DecidableEq

/-- The `Body` constructor of `simulator.js` (the auto-incremented
global `_nextId` is passed explicitly). -/
def mkBody (id : ℕ) (name : String) (x y vx vy mass radius : ℚ)
    (color : String) : Body :=
  { id := id, name := name, x := x, y := y, vx := vx, vy := vy
    mass := mass, radius := radius, color := color
    ax := 0, ay := 0
    vxh := vx, vyh := vy
    leapReady := false
    trail := []
    forceMag := 0
    physRadius := radius * (15 * 10 ^ 7)
    fx_ext := 0, fy_ext := 0
    engineOn := false
    jojo := false }

instance : Inhabited Body := ⟨mkBody 0 "" 0 0 0 0 0 0 ""⟩

/-- A merge flash event, as pushed by `_merge`. -/
structure MergeEvent where
  x : ℚ
  y : ℚ
  simTime : ℚ
  text : String
  bigName : String
  smallName : String
deriving DecidableEq

/-- The `Simulation` class state of `simulator.js`. -/
structure Simulation where
  bodies : List Body
  softening : ℚ
  mergeOnCollision : Bool
  time : ℚ
  maxTrailLength : ℕ
  mergeEvents : List MergeEvent
  newMergeEvents : List MergeEvent
deriving DecidableEq

/-- The `Simulation` constructor. -/
def Simulation.init : Simulation :=
  { bodies := []
    softening := AU / 100
    mergeOnCollision := true
    time := 0
    maxTrailLength := 600
    mergeEvents := []
    newMergeEvents := [] }

/-- Method `addBody(b)`: push, then clear every body's readiness flag. -/
def addBody (b : Body) (sim : Simulation) : Simulation :=
  { sim with bodies :=
      (sim.bodies ++ [b]).map (fun bd => { bd with leapReady := false }) }

/-- Method `removeById(id)`: filter out the body with that id, then clear
every remaining body's readiness flag. -/
def removeById (id : ℕ) (sim : Simulation) : Simulation :=
  let kept := sim.bodies.filter (fun b => decide (¬ b.id = id))
  { sim with bodies := kept.map (fun bd => { bd with leapReady := false }) }

/-- Method `clear()`. -/
def Simulation.clear (sim : Simulation) : Simulation :=
  { sim with bodies := [], mergeEvents := [], newMergeEvents := [], time := 0 }

/-! ### Force accumulation (`_accumulateAccels`) -/

/-- The index pairs `(i, j)`, `i < j < n`, in the order the double
loop of `_accumulateAccels` (and of `_handleMerges` / `potentialEnergy`)
visits them: outer index ascending, inner index ascending. -/
def pairIndices (n : ℕ) : List (ℕ × ℕ) :=
  (List.range n).flatMap
    (fun i => ((List.range n).filter (fun j => decide (i < j))).map (fun j => (i, j)))

/-- Per-index accumulation tables for the pairwise pass: the values of
`ax`, `ay`, `forceMag` being built up, indexed by body position. -/
structure Accum where
  ax : ℕ → ℚ
  ay : ℕ → ℚ
  fm : ℕ → ℚ

/-- Add `d` to the table entry at index `i` (one `+=` of the source). -/
def addAt (f : ℕ → ℚ) (i : ℕ) (d : ℚ) : ℕ → ℚ :=
  fun k => if k = i then f k + d else f k

/-- The body of the inner pair loop of `_accumulateAccels`: for the
pair `p = (i, j)` add the shared-intermediate contributions to the
entries of both bodies. -/
def accumPair (P : Prims) (eps2 : ℚ) (bs : List Body) (acc : Accum)
    (p : ℕ × ℕ) : Accum :=
  let bi := bs.getD p.1 default
  let bj := bs.getD p.2 default
  let dx := bj.x - bi.x
  let dy := bj.y - bi.y
  let r2 := dx * dx + dy * dy + eps2
  let r := P.sqrt r2
  let g := G / (r2 * r)
  let gx := g * dx
  let gy := g * dy
  let fmag := G * bi.mass * bj.mass / r2
  { ax := addAt (addAt acc.ax p.1 (bj.mass * gx)) p.2 (-(bi.mass * gx))
    ay := addAt (addAt acc.ay p.1 (bj.mass * gy)) p.2 (-(bi.mass * gy))
    fm := addAt (addAt acc.fm p.1 fmag) p.2 fmag }

/-- The whole pairwise pass, starting from the zeroed tables
(`b.ax = 0; b.ay = 0; b.forceMag = 0` for every body). -/
def accTables (P : Prims) (eps2 : ℚ) (bs : List Body) : Accum :=
  (pairIndices bs.length).foldl (accumPair P eps2 bs)
    { ax := fun _ => 0, ay := fun _ => 0, fm := fun _ => 0 }

/-- Method `_accumulateAccels()`: zero the per-body accumulators, run the
pairwise loop, write the results back, then add each body's external
force over mass when its external force is nonzero. -/
def _accumulateAccels (P : Prims) (sim : Simulation) : Simulation :=
  let eps2 := sim.softening * sim.softening
  let acc := accTables P eps2 sim.bodies
  { sim with bodies :=
      (List.range sim.bodies.length).map (fun k =>
        let b := sim.bodies.getD k default
        let hasExt : Bool := decide (¬ b.fx_ext = 0 ∨ ¬ b.fy_ext = 0)
        { b with
          ax := if hasExt then acc.ax k + b.fx_ext / b.mass else acc.ax k
          ay := if hasExt then acc.ay k + b.fy_ext / b.mass else acc.ay k
          forceMag := acc.fm k }) }

/-! ### Leapfrog integrator (`_leapfrogStep`, `step`) -/

/-- The per-body lazy half-kick write of `_leapfrogStep`:
`b._vxh = b.vx + 0.5*b.ax*h; … ; b._leapReady = true`. -/
def halfKickF (h : ℚ) (b : Body) : Body :=
  { b with
    vxh := b.vx + 1 / 2 * b.ax * h
    vyh := b.vy + 1 / 2 * b.ay * h
    leapReady := true }

/-- The per-body drift: `b.x += b._vxh * h; b.y += b._vyh * h`. -/
def driftF (h : ℚ) (b : Body) : Body :=
  { b with x := b.x + b.vxh * h, y := b.y + b.vyh * h }

/-- The per-body kick: `b.vx = b._vxh + 0.5*b.ax*h`, then the eager
precompute of the next sub-step's half-velocity
`b._vxh = b.vx + 0.5*b.ax*h` (likewise for `y`). -/
def kickF (h : ℚ) (b : Body) : Body :=
  let vx := b.vxh + 1 / 2 * b.ax * h
  let vy := b.vyh + 1 / 2 * b.ay * h
  { b with
    vx := vx, vy := vy
    vxh := vx + 1 / 2 * b.ax * h
    vyh := vy + 1 / 2 * b.ay * h }

/-- The lazy half-kick loop over all bodies. -/
def halfKick (h : ℚ) (sim : Simulation) : Simulation :=
  { sim with bodies := sim.bodies.map (halfKickF h) }

/-- The drift loop over all bodies. -/
def drift (h : ℚ) (sim : Simulation) : Simulation :=
  { sim with bodies := sim.bodies.map (driftF h) }

/-- The kick loop over all bodies. -/
def kick (h : ℚ) (sim : Simulation) : Simulation :=
  { sim with bodies := sim.bodies.map (kickF h) }

/-- Method `_leapfrogStep(h)`: lazily recompute the half-step velocities when
some body's readiness flag is unset, then drift, recompute
accelerations, and kick (with the eager half-velocity precompute). -/
def _leapfrogStep (P : Prims) (h : ℚ) (sim : Simulation) : Simulation :=
  let sim :=
    if sim.bodies.all (fun b => b.leapReady) then sim
    else halfKick h (_accumulateAccels P sim)
  kick h (_accumulateAccels P (drift h sim))

/-- Textbook kick-drift-kick leapfrog for comparison: recompute
`half_velocity = velocity + 0.5·acceleration·h` from freshly
accumulated accelerations at the start of every sub-step,
unconditionally. -/
def textbookStep (P : Prims) (h : ℚ) (sim : Simulation) : Simulation :=
  kick h (_accumulateAccels P (drift h (halfKick h (_accumulateAccels P sim))))

/-! ### Collision merging (`_merge`, `_handleMerges`) -/

/-- The overlap test of `_handleMerges` for the pair `p = (i, j)`:
`Math.hypot(b.x-a.x, b.y-a.y) < a.physRadius + b.physRadius`. -/
def overlapB (P : Prims) (bs : List Body) (p : ℕ × ℕ) : Bool :=
  let a := bs.getD p.1 default
  let b := bs.getD p.2 default
  decide (P.sqrt ((b.x - a.x) * (b.x - a.x) + (b.y - a.y) * (b.y - a.y))
    < a.physRadius + b.physRadius)

/-- The pair scan of `_handleMerges`: first overlapping pair in
ascending `(i, j)` order, or `none`. -/
def findOverlap (P : Prims) (bs : List Body) : Option (ℕ × ℕ) :=
  (pairIndices bs.length).find? (overlapB P bs)

/-- Method `_merge(i, j)`: the heavier of the two bodies survives (ties go to
the lower index `i`, since the source compares `a.mass >= b.mass`),
absorbing mass, momentum-weighted position and velocity, radii, trail
reset and external force; an event is pushed to both queues; the loser
is removed and every remaining body's readiness flag is cleared. -/
def _merge (P : Prims) (i j : ℕ) (sim : Simulation) : Simulation :=
  let a := sim.bodies.getD i default
  let b := sim.bodies.getD j default
  let Mt := a.mass + b.mass
  let aBig : Bool := decide (b.mass ≤ a.mass)
  let big := if aBig then a else b
  let small := if aBig then b else a
  let nx := (a.mass * a.x + b.mass * b.x) / Mt
  let ny := (a.mass * a.y + b.mass * b.y) / Mt
  let nvx := (a.mass * a.vx + b.mass * b.vx) / Mt
  let nvy := (a.mass * a.vy + b.mass * b.vy) / Mt
  let newBig :=
    { big with
      x := nx, y := ny
      vx := nvx, vy := nvy
      mass := Mt
      radius := P.ceilCbrt (a.radius ^ 3 + b.radius ^ 3)
      physRadius := max a.physRadius b.physRadius * (106 / 100)
      trail := []
      fx_ext := big.fx_ext + small.fx_ext
      fy_ext := big.fy_ext + small.fy_ext }
  let ev : MergeEvent :=
    { x := nx, y := ny, simTime := sim.time
      text := P.shout big.name small.name
      bigName := big.name, smallName := small.name }
  let bigIdx := if aBig then i else j
  let smallIdx := if aBig then j else i
  { sim with
    bodies := ((sim.bodies.set bigIdx newBig).eraseIdx smallIdx).map
      (fun bd => { bd with leapReady := false })
    mergeEvents := sim.mergeEvents ++ [ev]
    newMergeEvents := sim.newMergeEvents ++ [ev] }

theorem pairIndices_mem {n : ℕ} {p : ℕ × ℕ} (hp : p ∈ pairIndices n) :
    p.1 < p.2 ∧ p.2 < n := by
  simp only [pairIndices, List.mem_flatMap, List.mem_map, List.mem_filter,
    List.mem_range] at hp
  obtain ⟨i, hi, j, ⟨hj, hij⟩, rfl⟩ := hp
  exact ⟨by simpa using hij, hj⟩

theorem findOverlap_some {P : Prims} {bs : List Body} {p : ℕ × ℕ}
    (h : findOverlap P bs = some p) : p.1 < p.2 ∧ p.2 < bs.length :=
  pairIndices_mem (List.mem_of_find?_eq_some h)

theorem merge_length {P : Prims} {i j : ℕ} {sim : Simulation}
    (hij : i < j) (hj : j < sim.bodies.length) :
    (_merge P i j sim).bodies.length = sim.bodies.length - 1 := by
  have hi : i < sim.bodies.length := Nat.lt_trans hij hj
  by_cases hb : (sim.bodies.getD j default).mass ≤ (sim.bodies.getD i default).mass
  · simp [_merge, List.length_eraseIdx, hb, hi, hj]
    rw [List.getD_eq_getElem _ _ hj, List.getD_eq_getElem _ _ hi] at hb
    rw [if_pos hb]
    omega
  · simp [_merge, List.length_eraseIdx, hb, hi, hj]
    rw [List.getD_eq_getElem _ _ hj, List.getD_eq_getElem _ _ hi] at hb
    rw [if_neg hb]
    omega

/-- Method `_handleMerges()`: repeatedly rescan all pairs and merge the first
overlapping one, until a full scan finds none.  Termination: every
merge removes one body. -/
def _handleMerges (P : Prims) (sim : Simulation) : Simulation :=
  match hfo : findOverlap P sim.bodies with
  | none => sim
  | some p =>
      have hb := findOverlap_some hfo
      have : (_merge P p.1 p.2 sim).bodies.length < sim.bodies.length := by
        rw [merge_length hb.1 hb.2]
        omega
      _handleMerges P (_merge P p.1 p.2 sim)
termination_by sim.bodies.length

/-- The per-frame trail-recording pass of `step`. -/
def trailPass (P : Prims) (sim : Simulation) : Simulation :=
  { sim with bodies := sim.bodies.map (fun b =>
      let tl := b.trail
      let last := tl.getLastD (0, 0)
      if tl.length = 0 ∨
          AU / 1000 < P.sqrt ((b.x - last.1) * (b.x - last.1) +
            (b.y - last.2) * (b.y - last.2)) then
        let tl := tl ++ [(b.x, b.y)]
        { b with trail := if sim.maxTrailLength < tl.length then tl.tail else tl }
      else b) }

/-- Method `step(dt, subSteps)`: early-return on an empty body set; otherwise
run `subSteps` leapfrog sub-steps of size `h = dt/subSteps`, record
trails, advance time, resolve collisions when enabled, and expire
flash events older than four (Julian) years of simulated time. -/
def step (P : Prims) (dt : ℚ) (subSteps : ℕ) (sim : Simulation) : Simulation :=
  if sim.bodies.length = 0 then sim
  else
    let h := dt / (subSteps : ℚ)
    let sim := (_leapfrogStep P h)^[subSteps] sim
    let sim := trailPass P sim
    let sim := { sim with time := sim.time + dt }
    let sim := if sim.mergeOnCollision then _handleMerges P sim else sim
    let keep := fun (e : MergeEvent) =>
      decide (sim.time - e.simTime < 4 * (36525 / 100) * 86400)
    { sim with mergeEvents := sim.mergeEvents.filter keep }

/-! ### Diagnostics -/

/-- Diagnostic `kineticEnergy()`. -/
def kineticEnergy (sim : Simulation) : ℚ :=
  sim.bodies.foldl (fun s b => s + 1 / 2 * b.mass * (b.vx * b.vx + b.vy * b.vy)) 0

/-- Diagnostic `potentialEnergy()`: softened pairwise potential, accumulated over
the same ascending pair scan as the force loop. -/
def potentialEnergy (P : Prims) (sim : Simulation) : ℚ :=
  let eps2 := sim.softening * sim.softening
  (pairIndices sim.bodies.length).foldl (fun U p =>
    let bi := sim.bodies.getD p.1 default
    let bj := sim.bodies.getD p.2 default
    let dx := bj.x - bi.x
    let dy := bj.y - bi.y
    U - G * bi.mass * bj.mass / P.sqrt (dx * dx + dy * dy + eps2)) 0

/-- Diagnostic `totalEnergy()`. -/
def totalEnergy (P : Prims) (sim : Simulation) : ℚ :=
  kineticEnergy sim + potentialEnergy P sim

/-- Diagnostic `centerOfMass()`: mass-weighted centroid, or the origin with zero
mass when `M > 0` fails. -/
def centerOfMass (sim : Simulation) : ℚ × ℚ × ℚ :=
  let M := (sim.bodies.map (fun b => b.mass)).sum
  let cx := (sim.bodies.map (fun b => b.mass * b.x)).sum
  let cy := (sim.bodies.map (fun b => b.mass * b.y)).sum
  if 0 < M then (cx / M, cy / M, M) else (0, 0, 0)

/-! ### The pairwise pass computes the textbook sums -/

/-- Softened squared distance between two bodies, `|d|² + ε²`. -/
def r2v (eps2 : ℚ) (ba bb : Body) : ℚ :=
  (bb.x - ba.x) * (bb.x - ba.x) + (bb.y - ba.y) * (bb.y - ba.y) + eps2

theorem r2v_symm (eps2 : ℚ) (ba bb : Body) : r2v eps2 ba bb = r2v eps2 bb ba := by
  simp only [r2v]
  ring

/-- The acceleration contribution that body (index) `b` exerts on body
`a`: `mass(b) · g · (position(b) − position(a))` with the shared scalar
`g = G / (r2·sqrt(r2))` — the `x` component. -/
def Aax (P : Prims) (eps2 : ℚ) (bs : List Body) (a b : ℕ) : ℚ :=
  let ba := bs.getD a default
  let bb := bs.getD b default
  bb.mass * (G / (r2v eps2 ba bb * P.sqrt (r2v eps2 ba bb))) * (bb.x - ba.x)

/-- Same, `y` component. -/
def Aay (P : Prims) (eps2 : ℚ) (bs : List Body) (a b : ℕ) : ℚ :=
  let ba := bs.getD a default
  let bb := bs.getD b default
  bb.mass * (G / (r2v eps2 ba bb * P.sqrt (r2v eps2 ba bb))) * (bb.y - ba.y)

/-- The pairwise force-magnitude contribution `G·mᵢ·mⱼ/r2`. -/
def Afm (eps2 : ℚ) (bs : List Body) (a b : ℕ) : ℚ :=
  let ba := bs.getD a default
  let bb := bs.getD b default
  G * ba.mass * bb.mass / r2v eps2 ba bb

/-- One `+=` pair on the tables, read back pointwise. -/
theorem addAt_pair (f : ℕ → ℚ) (i j k : ℕ) (di dj : ℚ) :
    addAt (addAt f i di) j dj k
      = f k + ((if k = i then di else 0) + (if k = j then dj else 0)) := by
  simp only [addAt]
  split_ifs <;> ring

/-- The per-pair delta applied to the `ax` table by `accumPair`. -/
def cAx (P : Prims) (eps2 : ℚ) (bs : List Body) (p : ℕ × ℕ) (k : ℕ) : ℚ :=
  let bi := bs.getD p.1 default
  let bj := bs.getD p.2 default
  let g := G / (r2v eps2 bi bj * P.sqrt (r2v eps2 bi bj))
  (if k = p.1 then bj.mass * (g * (bj.x - bi.x)) else 0)
    + (if k = p.2 then -(bi.mass * (g * (bj.x - bi.x))) else 0)

/-- The per-pair delta applied to the `ay` table by `accumPair`. -/
def cAy (P : Prims) (eps2 : ℚ) (bs : List Body) (p : ℕ × ℕ) (k : ℕ) : ℚ :=
  let bi := bs.getD p.1 default
  let bj := bs.getD p.2 default
  let g := G / (r2v eps2 bi bj * P.sqrt (r2v eps2 bi bj))
  (if k = p.1 then bj.mass * (g * (bj.y - bi.y)) else 0)
    + (if k = p.2 then -(bi.mass * (g * (bj.y - bi.y))) else 0)

/-- The per-pair delta applied to the `forceMag` table by `accumPair`. -/
def cFm (eps2 : ℚ) (bs : List Body) (p : ℕ × ℕ) (k : ℕ) : ℚ :=
  let bi := bs.getD p.1 default
  let bj := bs.getD p.2 default
  let fmag := G * bi.mass * bj.mass / r2v eps2 bi bj
  (if k = p.1 then fmag else 0) + (if k = p.2 then fmag else 0)

theorem accumPair_ax (P : Prims) (eps2 : ℚ) (bs : List Body) (acc : Accum)
    (p : ℕ × ℕ) (k : ℕ) :
    (accumPair P eps2 bs acc p).ax k = acc.ax k + cAx P eps2 bs p k := by
  simp only [accumPair, cAx, r2v]
  exact addAt_pair _ _ _ _ _ _

theorem accumPair_ay (P : Prims) (eps2 : ℚ) (bs : List Body) (acc : Accum)
    (p : ℕ × ℕ) (k : ℕ) :
    (accumPair P eps2 bs acc p).ay k = acc.ay k + cAy P eps2 bs p k := by
  simp only [accumPair, cAy, r2v]
  exact addAt_pair _ _ _ _ _ _

theorem accumPair_fm (P : Prims) (eps2 : ℚ) (bs : List Body) (acc : Accum)
    (p : ℕ × ℕ) (k : ℕ) :
    (accumPair P eps2 bs acc p).fm k = acc.fm k + cFm eps2 bs p k := by
  simp only [accumPair, cFm, r2v]
  exact addAt_pair _ _ _ _ _ _

theorem cAx_eq (P : Prims) (eps2 : ℚ) (bs : List Body) (p : ℕ × ℕ) (k : ℕ) :
    cAx P eps2 bs p k
      = (if k = p.1 then Aax P eps2 bs p.1 p.2 else 0)
        + (if k = p.2 then Aax P eps2 bs p.2 p.1 else 0) := by
  have hx := r2v_symm eps2 (bs.getD p.2 default) (bs.getD p.1 default)
  simp only [cAx, Aax]
  split_ifs <;> first | (rw [hx]; ring) | ring

theorem cAy_eq (P : Prims) (eps2 : ℚ) (bs : List Body) (p : ℕ × ℕ) (k : ℕ) :
    cAy P eps2 bs p k
      = (if k = p.1 then Aay P eps2 bs p.1 p.2 else 0)
        + (if k = p.2 then Aay P eps2 bs p.2 p.1 else 0) := by
  have hx := r2v_symm eps2 (bs.getD p.2 default) (bs.getD p.1 default)
  simp only [cAy, Aay]
  split_ifs <;> first | (rw [hx]; ring) | ring

theorem cFm_eq (eps2 : ℚ) (bs : List Body) (p : ℕ × ℕ) (k : ℕ) :
    cFm eps2 bs p k
      = (if k = p.1 then Afm eps2 bs p.1 p.2 else 0)
        + (if k = p.2 then Afm eps2 bs p.2 p.1 else 0) := by
  have hx := r2v_symm eps2 (bs.getD p.2 default) (bs.getD p.1 default)
  simp only [cFm, Afm]
  split_ifs <;> first | (rw [hx]; ring) | ring

theorem foldl_accumPair_ax (P : Prims) (eps2 : ℚ) (bs : List Body)
    (l : List (ℕ × ℕ)) (acc : Accum) (k : ℕ) :
    ((l.foldl (accumPair P eps2 bs) acc).ax) k
      = acc.ax k + ((l.map (fun p => cAx P eps2 bs p k)).sum) := by
  induction l generalizing acc with
  | nil => simp
  | cons p t ih =>
      rw [List.foldl_cons, ih, accumPair_ax]
      simp
      ring

theorem foldl_accumPair_ay (P : Prims) (eps2 : ℚ) (bs : List Body)
    (l : List (ℕ × ℕ)) (acc : Accum) (k : ℕ) :
    ((l.foldl (accumPair P eps2 bs) acc).ay) k
      = acc.ay k + ((l.map (fun p => cAy P eps2 bs p k)).sum) := by
  induction l generalizing acc with
  | nil => simp
  | cons p t ih =>
      rw [List.foldl_cons, ih, accumPair_ay]
      simp
      ring

theorem foldl_accumPair_fm (P : Prims) (eps2 : ℚ) (bs : List Body)
    (l : List (ℕ × ℕ)) (acc : Accum) (k : ℕ) :
    ((l.foldl (accumPair P eps2 bs) acc).fm) k
      = acc.fm k + ((l.map (fun p => cFm eps2 bs p k)).sum) := by
  induction l generalizing acc with
  | nil => simp
  | cons p t ih =>
      rw [List.foldl_cons, ih, accumPair_fm]
      simp
      ring

/-! ### Bridging list sums over the pair scan to `Finset` sums -/

theorem listsum_map_flatMap {α β : Type} (l : List α) (F : α → List β) (f : β → ℚ) :
    ((l.flatMap F).map f).sum = (l.map (fun a => ((F a).map f).sum)).sum := by
  induction l with
  | nil => rfl
  | cons a t ih => simp [List.flatMap_cons, List.map_append, List.sum_append, ih]

theorem listsum_map_range (n : ℕ) (f : ℕ → ℚ) :
    ((List.range n).map f).sum = ∑ i in Finset.range n, f i := by
  induction n with
  | zero => rfl
  | succ m ih =>
      rw [List.range_succ, List.map_append, List.sum_append, Finset.sum_range_succ, ih]
      simp

theorem listsum_map_filter_range (n i : ℕ) (f : ℕ → ℚ) :
    (((List.range n).filter (fun j => decide (i < j))).map f).sum
      = ∑ j in (Finset.range n).filter (fun j => i < j), f j := by
  induction n with
  | zero => rfl
  | succ m ih =>
      rw [List.range_succ, List.filter_append, List.map_append, List.sum_append, ih]
      rw [Finset.range_succ, Finset.filter_insert]
      by_cases him : i < m
      · rw [if_pos him, Finset.sum_insert (by simp)]
        simp [him, add_comm]
      · rw [if_neg him]
        simp [him]

theorem listsum_pairIndices (n : ℕ) (f : (ℕ × ℕ) → ℚ) :
    ((pairIndices n).map f).sum
      = ∑ i in Finset.range n, ∑ j in (Finset.range n).filter (fun j => i < j), f (i, j) := by
  rw [pairIndices, listsum_map_flatMap, ← listsum_map_range]
  congr 1
  apply List.map_congr_left
  intro i _
  rw [List.map_map, ← listsum_map_filter_range]
  rfl

/-- The central double-counting identity: summing the two one-sided
contributions over all ascending pairs yields, for each index `k < n`,
the full sum over the other indices. -/
theorem pairSum_eq (n k : ℕ) (hk : k < n) (A : ℕ → ℕ → ℚ) :
    (∑ i in Finset.range n, ∑ j in (Finset.range n).filter (fun j => i < j),
        ((if k = i then A i j else 0) + (if k = j then A j i else 0)))
      = ∑ j in (Finset.range n).erase k, A k j := by
  have h1 : (∑ i in Finset.range n, ∑ j in (Finset.range n).filter (fun j => i < j),
        (if k = i then A i j else 0))
      = ∑ j in (Finset.range n).filter (fun j => k < j), A k j := by
    have inner : ∀ i, (∑ j in (Finset.range n).filter (fun j => i < j),
        (if k = i then A i j else 0))
        = (if k = i then ∑ j in (Finset.range n).filter (fun j => i < j), A i j else 0) := by
      intro i
      split_ifs with h
      · rfl
      · simp [h]
    rw [Finset.sum_congr rfl (fun i _ => inner i), Finset.sum_ite_eq]
    rw [if_pos (Finset.mem_range.mpr hk)]
  have h2 : (∑ i in Finset.range n, ∑ j in (Finset.range n).filter (fun j => i < j),
        (if k = j then A j i else 0))
      = ∑ i in (Finset.range n).filter (fun i => i < k), A k i := by
    have inner : ∀ i, (∑ j in (Finset.range n).filter (fun j => i < j),
        (if k = j then A j i else 0))
        = (if i < k then A k i else 0) := by
      intro i
      rw [Finset.sum_ite_eq]
      by_cases hik : i < k
      · rw [if_pos (by simp [Finset.mem_filter, Finset.mem_range, hik, hk]), if_pos hik]
      · rw [if_neg (by simp [Finset.mem_filter, Finset.mem_range, hik]), if_neg hik]
    rw [Finset.sum_congr rfl (fun i _ => inner i), ← Finset.sum_filter]
  have hdist : ∀ i : ℕ, (∑ j in (Finset.range n).filter (fun j => i < j),
      ((if k = i then A i j else 0) + (if k = j then A j i else 0)))
      = (∑ j in (Finset.range n).filter (fun j => i < j), (if k = i then A i j else 0))
        + (∑ j in (Finset.range n).filter (fun j => i < j), (if k = j then A j i else 0)) :=
    fun i => Finset.sum_add_distrib
  rw [Finset.sum_congr rfl (fun i _ => hdist i), Finset.sum_add_distrib, h1, h2]
  have hsplit := Finset.sum_filter_add_sum_filter_not ((Finset.range n).erase k)
    (fun j => k < j) (A k)
  rw [← hsplit]
  congr 1
  · congr 1
    apply Finset.ext
    intro a
    simp [Finset.mem_filter, Finset.mem_erase, Finset.mem_range]
    omega
  · congr 1
    apply Finset.ext
    intro a
    simp [Finset.mem_filter, Finset.mem_erase, Finset.mem_range]
    omega

/-- The accumulation tables after the full pairwise pass hold exactly
the textbook sums over the other bodies. -/
theorem accTables_eval (P : Prims) (eps2 : ℚ) (bs : List Body) (k : ℕ)
    (hk : k < bs.length) :
    (accTables P eps2 bs).ax k
        = (∑ j in (Finset.range bs.length).erase k, Aax P eps2 bs k j)
      ∧ (accTables P eps2 bs).ay k
        = (∑ j in (Finset.range bs.length).erase k, Aay P eps2 bs k j)
      ∧ (accTables P eps2 bs).fm k
        = (∑ j in (Finset.range bs.length).erase k, Afm eps2 bs k j) := by
  refine ⟨?_, ?_, ?_⟩
  · rw [accTables, foldl_accumPair_ax]
    simp only [cAx_eq]
    rw [listsum_pairIndices bs.length (fun p =>
      (if k = p.1 then Aax P eps2 bs p.1 p.2 else 0)
        + (if k = p.2 then Aax P eps2 bs p.2 p.1 else 0))]
    rw [pairSum_eq bs.length k hk (Aax P eps2 bs)]
    simp
  · rw [accTables, foldl_accumPair_ay]
    simp only [cAy_eq]
    rw [listsum_pairIndices bs.length (fun p =>
      (if k = p.1 then Aay P eps2 bs p.1 p.2 else 0)
        + (if k = p.2 then Aay P eps2 bs p.2 p.1 else 0))]
    rw [pairSum_eq bs.length k hk (Aay P eps2 bs)]
    simp
  · rw [accTables, foldl_accumPair_fm]
    simp only [cFm_eq]
    rw [listsum_pairIndices bs.length (fun p =>
      (if k = p.1 then Afm eps2 bs p.1 p.2 else 0)
        + (if k = p.2 then Afm eps2 bs p.2 p.1 else 0))]
    rw [pairSum_eq bs.length k hk (Afm eps2 bs)]
    simp

theorem accumulateAccels_length (P : Prims) (sim : Simulation) :
    (_accumulateAccels P sim).bodies.length = sim.bodies.length := by
  simp [_accumulateAccels]

theorem accumulateAccels_getD (P : Prims) (sim : Simulation) (k : ℕ)
    (hk : k < sim.bodies.length) :
    (_accumulateAccels P sim).bodies.getD k default
      = (let b := sim.bodies.getD k default
         let acc := accTables P (sim.softening * sim.softening) sim.bodies
         let hasExt : Bool := decide (¬ b.fx_ext = 0 ∨ ¬ b.fy_ext = 0)
         { b with
           ax := if hasExt then acc.ax k + b.fx_ext / b.mass else acc.ax k
           ay := if hasExt then acc.ay k + b.fy_ext / b.mass else acc.ay k
           forceMag := acc.fm k }) := by
  simp only [_accumulateAccels]
  rw [List.getD_eq_getElem _ _ (by simpa using hk), List.getElem_map, List.getElem_range]

theorem accumulateAccels_ax_eval (P : Prims) (sim : Simulation) (k : ℕ)
    (hk : k < sim.bodies.length) :
    ((_accumulateAccels P sim).bodies.getD k default).ax
      = (accTables P (sim.softening * sim.softening) sim.bodies).ax k
        + (sim.bodies.getD k default).fx_ext / (sim.bodies.getD k default).mass := by
  rw [accumulateAccels_getD P sim k hk]
  dsimp only
  by_cases hc : ¬ (sim.bodies.getD k default).fx_ext = 0
      ∨ ¬ (sim.bodies.getD k default).fy_ext = 0
  · rw [if_pos (decide_eq_true hc)]
  · rw [if_neg (fun h => hc (of_decide_eq_true h))]
    push_neg at hc
    rw [hc.1, zero_div, add_zero]

theorem accumulateAccels_ay_eval (P : Prims) (sim : Simulation) (k : ℕ)
    (hk : k < sim.bodies.length) :
    ((_accumulateAccels P sim).bodies.getD k default).ay
      = (accTables P (sim.softening * sim.softening) sim.bodies).ay k
        + (sim.bodies.getD k default).fy_ext / (sim.bodies.getD k default).mass := by
  rw [accumulateAccels_getD P sim k hk]
  dsimp only
  by_cases hc : ¬ (sim.bodies.getD k default).fx_ext = 0
      ∨ ¬ (sim.bodies.getD k default).fy_ext = 0
  · rw [if_pos (decide_eq_true hc)]
  · rw [if_neg (fun h => hc (of_decide_eq_true h))]
    push_neg at hc
    rw [hc.2, zero_div, add_zero]

theorem accumulateAccels_fm_eval (P : Prims) (sim : Simulation) (k : ℕ)
    (hk : k < sim.bodies.length) :
    ((_accumulateAccels P sim).bodies.getD k default).forceMag
      = (accTables P (sim.softening * sim.softening) sim.bodies).fm k := by
  rw [accumulateAccels_getD P sim k hk]

theorem accumulateAccels_mass_eval (P : Prims) (sim : Simulation) (k : ℕ)
    (hk : k < sim.bodies.length) :
    ((_accumulateAccels P sim).bodies.getD k default).mass
      = (sim.bodies.getD k default).mass := by
  rw [accumulateAccels_getD P sim k hk]

/-- Bridge: a list sum of mapped values as a `Finset.range` sum over
positions. -/
theorem listsum_map_getD {α : Type} [Inhabited α] (l : List α) (f : α → ℚ) :
    (l.map f).sum = ∑ k in Finset.range l.length, f (l.getD k default) := by
  induction l with
  | nil => rfl
  | cons a t ih =>
      rw [List.map_cons, List.sum_cons, List.length_cons, Finset.sum_range_succ']
      simp only [List.getD_cons_zero, List.getD_cons_succ]
      rw [← ih]
      ring

/-- A double sum of an antisymmetric function with zero diagonal
vanishes. -/
theorem antisym_double_sum (n : ℕ) (F : ℕ → ℕ → ℚ)
    (hdiag : ∀ k, F k k = 0)
    (hanti : ∀ k j, F k j + F j k = 0) :
    (∑ k in Finset.range n, ∑ j in (Finset.range n).erase k, F k j) = 0 := by
  have hfull : ∀ k, (∑ j in (Finset.range n).erase k, F k j)
      = ∑ j in Finset.range n, F k j :=
    fun k => Finset.sum_erase _ (hdiag k)
  rw [Finset.sum_congr rfl (fun k _ => hfull k)]
  have hswap : (∑ k in Finset.range n, ∑ j in Finset.range n, F k j)
      = ∑ k in Finset.range n, ∑ j in Finset.range n, F j k := Finset.sum_comm
  have hzero : (∑ k in Finset.range n, ∑ j in Finset.range n, F k j)
      + (∑ k in Finset.range n, ∑ j in Finset.range n, F k j) = 0 := by
    nth_rewrite 2 [hswap]
    rw [← Finset.sum_add_distrib]
    have h1 : ∀ k, (∑ j in Finset.range n, F k j) + (∑ j in Finset.range n, F j k)
        = ∑ j in Finset.range n, (F k j + F j k) :=
      fun k => Finset.sum_add_distrib.symm
    rw [Finset.sum_congr rfl (fun k _ => h1 k)]
    simp [hanti]
  linarith

/-- Claim C1: One call to the force-accumulation pass leaves each body
`k` with acceleration equal to the sum over all other bodies `j` of
`mass(j) · g · d` (with `d = position(j) − position(k)`,
`r2 = |d|² + ε²` and `g = G / (r2 · sqrt(r2))`), plus the body's own
external force divided by its mass; and leaves its scalar force
magnitude equal to the sum over the other bodies of
`G · mass(k) · mass(j) / r2`. -/
theorem accumulateAccels_pairwise_sums (P : Prims) (sim : Simulation) (k : ℕ)
    (hk : k < sim.bodies.length) :
    ((_accumulateAccels P sim).bodies.getD k default).ax
        = (∑ j in (Finset.range sim.bodies.length).erase k,
            Aax P (sim.softening * sim.softening) sim.bodies k j)
          + (sim.bodies.getD k default).fx_ext / (sim.bodies.getD k default).mass
  ∧ ((_accumulateAccels P sim).bodies.getD k default).ay
        = (∑ j in (Finset.range sim.bodies.length).erase k,
            Aay P (sim.softening * sim.softening) sim.bodies k j)
          + (sim.bodies.getD k default).fy_ext / (sim.bodies.getD k default).mass
  ∧ ((_accumulateAccels P sim).bodies.getD k default).forceMag
        = ∑ j in (Finset.range sim.bodies.length).erase k,
            Afm (sim.softening * sim.softening) sim.bodies k j := by
  obtain ⟨hax, hay, hfm⟩ := accTables_eval P (sim.softening * sim.softening) sim.bodies k hk
  refine ⟨?_, ?_, ?_⟩
  · rw [accumulateAccels_ax_eval P sim k hk, hax]
  · rw [accumulateAccels_ay_eval P sim k hk, hay]
  · rw [accumulateAccels_fm_eval P sim k hk, hfm]

/-- Claim C2: With no external forces, one force-accumulation pass
leaves the mass-weighted vector sum of the accelerations, `Σ m·a`,
exactly zero (each pair's contribution is computed once from a shared
intermediate and applied with exact negation). -/
theorem accumulateAccels_newton_third (P : Prims) (sim : Simulation)
    (hext : ∀ b ∈ sim.bodies, b.fx_ext = 0 ∧ b.fy_ext = 0) :
    (((_accumulateAccels P sim).bodies.map (fun b => b.mass * b.ax)).sum = 0)
  ∧ (((_accumulateAccels P sim).bodies.map (fun b => b.mass * b.ay)).sum = 0) := by
  have hlen := accumulateAccels_length P sim
  have hzero : ∀ k, k < sim.bodies.length →
      (sim.bodies.getD k default).fx_ext = 0 ∧ (sim.bodies.getD k default).fy_ext = 0 := by
    intro k hk
    have hmem : sim.bodies.getD k default ∈ sim.bodies := by
      rw [List.getD_eq_getElem _ _ hk]
      exact List.getElem_mem hk
    exact hext _ hmem
  constructor
  · rw [listsum_map_getD, hlen]
    have hterm : ∀ k ∈ Finset.range sim.bodies.length,
        (fun b => b.mass * b.ax) ((_accumulateAccels P sim).bodies.getD k default)
          = ∑ j in (Finset.range sim.bodies.length).erase k,
              (sim.bodies.getD k default).mass
                * Aax P (sim.softening * sim.softening) sim.bodies k j := by
      intro k hkmem
      have hk := Finset.mem_range.mp hkmem
      obtain ⟨hfx, hfy⟩ := hzero k hk
      dsimp only
      rw [accumulateAccels_mass_eval P sim k hk, accumulateAccels_ax_eval P sim k hk,
        (accTables_eval P (sim.softening * sim.softening) sim.bodies k hk).1,
        hfx, zero_div, add_zero, Finset.mul_sum]
    rw [Finset.sum_congr rfl hterm]
    apply antisym_double_sum
    · intro k
      simp only [Aax]
      ring
    · intro k j
      simp only [Aax]
      rw [r2v_symm (sim.softening * sim.softening)
        (sim.bodies.getD j default) (sim.bodies.getD k default)]
      ring
  · rw [listsum_map_getD, hlen]
    have hterm : ∀ k ∈ Finset.range sim.bodies.length,
        (fun b => b.mass * b.ay) ((_accumulateAccels P sim).bodies.getD k default)
          = ∑ j in (Finset.range sim.bodies.length).erase k,
              (sim.bodies.getD k default).mass
                * Aay P (sim.softening * sim.softening) sim.bodies k j := by
      intro k hkmem
      have hk := Finset.mem_range.mp hkmem
      obtain ⟨hfx, hfy⟩ := hzero k hk
      dsimp only
      rw [accumulateAccels_mass_eval P sim k hk, accumulateAccels_ay_eval P sim k hk,
        (accTables_eval P (sim.softening * sim.softening) sim.bodies k hk).2.1,
        hfy, zero_div, add_zero, Finset.mul_sum]
    rw [Finset.sum_congr rfl hterm]
    apply antisym_double_sum
    · intro k
      simp only [Aay]
      ring
    · intro k j
      simp only [Aay]
      rw [r2v_symm (sim.softening * sim.softening)
        (sim.bodies.getD j default) (sim.bodies.getD k default)]
      ring

/-! ### Concrete fixtures for witnesses -/

/-- A concrete interpretation of the host primitives for witnesses
(the theorems hold for every interpretation). -/
def wP : Prims := { sqrt := fun q => q, ceilCbrt := fun q => q, shout := fun _ _ => "" }

def wA : Body := mkBody 1 "A" 0 0 0 0 1 1 "w"

def wB : Body := { mkBody 2 "B" 1 0 0 0 2 1 "w" with fx_ext := 3 }

def wBnoExt : Body := mkBody 2 "B" 1 0 0 0 2 1 "w"

/-- Two bodies, one with an external force. -/
def wSim : Simulation := { Simulation.init with bodies := [wA, wB], softening := 1 }

/-- Two bodies, no external forces. -/
def wSim0 : Simulation :=
  { Simulation.init with bodies := [wA, wBnoExt], softening := 1 }

/-- Witness for `accumulateAccels_pairwise_sums` at a concrete
two-body state. -/
theorem accumulateAccels_pairwise_sums_w :
    0 < wSim.bodies.length
      ∧ (((_accumulateAccels wP wSim).bodies.getD 0 default).ax
            = (∑ j in (Finset.range wSim.bodies.length).erase 0,
                Aax wP (wSim.softening * wSim.softening) wSim.bodies 0 j)
              + (wSim.bodies.getD 0 default).fx_ext / (wSim.bodies.getD 0 default).mass
        ∧ ((_accumulateAccels wP wSim).bodies.getD 0 default).ay
            = (∑ j in (Finset.range wSim.bodies.length).erase 0,
                Aay wP (wSim.softening * wSim.softening) wSim.bodies 0 j)
              + (wSim.bodies.getD 0 default).fy_ext / (wSim.bodies.getD 0 default).mass
        ∧ ((_accumulateAccels wP wSim).bodies.getD 0 default).forceMag
            = ∑ j in (Finset.range wSim.bodies.length).erase 0,
                Afm (wSim.softening * wSim.softening) wSim.bodies 0 j) :=
  ⟨by decide, accumulateAccels_pairwise_sums wP wSim 0 (by decide)⟩

/-- Witness for `accumulateAccels_newton_third` at a concrete
two-body state with no external forces. -/
theorem accumulateAccels_newton_third_w :
    (∀ b ∈ wSim0.bodies, b.fx_ext = 0 ∧ b.fy_ext = 0)
      ∧ ((((_accumulateAccels wP wSim0).bodies.map (fun b => b.mass * b.ax)).sum = 0)
        ∧ (((_accumulateAccels wP wSim0).bodies.map (fun b => b.mass * b.ay)).sum = 0)) :=
  ⟨by decide, accumulateAccels_newton_third wP wSim0 (by decide)⟩

/-! ### Merge semantics -/

/-- The body stored at position `k` of the collection. -/
def bodyAt (sim : Simulation) (k : ℕ) : Body := sim.bodies.getD k default

/-- Readiness-flag clearing applied to every body after a merge. -/
def flagOff (bd : Body) : Body := { bd with leapReady := false }

/-- The record written over the survivor when the lower-index body `a`
survives (`a.mass >= b.mass`). -/
def mergedBodyA (P : Prims) (i j : ℕ) (sim : Simulation) : Body :=
  let a := sim.bodies.getD i default
  let b := sim.bodies.getD j default
  let Mt := a.mass + b.mass
  { a with
    x := (a.mass * a.x + b.mass * b.x) / Mt
    y := (a.mass * a.y + b.mass * b.y) / Mt
    vx := (a.mass * a.vx + b.mass * b.vx) / Mt
    vy := (a.mass * a.vy + b.mass * b.vy) / Mt
    mass := Mt
    radius := P.ceilCbrt (a.radius ^ 3 + b.radius ^ 3)
    physRadius := max a.physRadius b.physRadius * (106 / 100)
    trail := []
    fx_ext := a.fx_ext + b.fx_ext
    fy_ext := a.fy_ext + b.fy_ext }

/-- The record written over the survivor when the higher-index body `b`
survives (`a.mass < b.mass`). -/
def mergedBodyB (P : Prims) (i j : ℕ) (sim : Simulation) : Body :=
  let a := sim.bodies.getD i default
  let b := sim.bodies.getD j default
  let Mt := a.mass + b.mass
  { b with
    x := (a.mass * a.x + b.mass * b.x) / Mt
    y := (a.mass * a.y + b.mass * b.y) / Mt
    vx := (a.mass * a.vx + b.mass * b.vx) / Mt
    vy := (a.mass * a.vy + b.mass * b.vy) / Mt
    mass := Mt
    radius := P.ceilCbrt (a.radius ^ 3 + b.radius ^ 3)
    physRadius := max a.physRadius b.physRadius * (106 / 100)
    trail := []
    fx_ext := b.fx_ext + a.fx_ext
    fy_ext := b.fy_ext + a.fy_ext }

theorem merge_bodies_aBig (P : Prims) (i j : ℕ) (sim : Simulation)
    (hm : (sim.bodies.getD j default).mass ≤ (sim.bodies.getD i default).mass) :
    (_merge P i j sim).bodies
      = ((sim.bodies.set i (mergedBodyA P i j sim)).eraseIdx j).map flagOff := by
  simp only [_merge, mergedBodyA, flagOff, decide_eq_true hm, if_true]
  rfl

theorem merge_bodies_bBig (P : Prims) (i j : ℕ) (sim : Simulation)
    (hm : ¬ (sim.bodies.getD j default).mass ≤ (sim.bodies.getD i default).mass) :
    (_merge P i j sim).bodies
      = ((sim.bodies.set j (mergedBodyB P i j sim)).eraseIdx i).map flagOff := by
  simp only [_merge, mergedBodyB, flagOff, decide_eq_false hm, Bool.false_eq_true, if_false]
  rfl

theorem merge_getD_aBig (P : Prims) (i j : ℕ) (sim : Simulation)
    (hij : i < j) (hj : j < sim.bodies.length)
    (hm : (sim.bodies.getD j default).mass ≤ (sim.bodies.getD i default).mass) :
    (_merge P i j sim).bodies.getD i default = flagOff (mergedBodyA P i j sim) := by
  rw [merge_bodies_aBig P i j sim hm]
  have hi : i < sim.bodies.length := Nat.lt_trans hij hj
  have hlen : i < (((sim.bodies.set i (mergedBodyA P i j sim)).eraseIdx j).map flagOff).length := by
    simp [List.length_eraseIdx, hj]
    omega
  rw [List.getD_eq_getElem _ _ hlen, List.getElem_map, List.getElem_eraseIdx]
  rw [dif_pos hij, List.getElem_set, if_pos rfl]

theorem merge_getD_bBig (P : Prims) (i j : ℕ) (sim : Simulation)
    (hij : i < j) (hj : j < sim.bodies.length)
    (hm : ¬ (sim.bodies.getD j default).mass ≤ (sim.bodies.getD i default).mass) :
    (_merge P i j sim).bodies.getD (j - 1) default = flagOff (mergedBodyB P i j sim) := by
  rw [merge_bodies_bBig P i j sim hm]
  have hi : i < sim.bodies.length := Nat.lt_trans hij hj
  have hlen : j - 1 < (((sim.bodies.set j (mergedBodyB P i j sim)).eraseIdx i).map flagOff).length := by
    simp [List.length_eraseIdx, hi]
    omega
  rw [List.getD_eq_getElem _ _ hlen, List.getElem_map, List.getElem_eraseIdx]
  rw [dif_neg (by omega), List.getElem_set, if_pos (by omega)]

theorem map_eraseIdx_comm {α β : Type} (f : α → β) (l : List α) (k : ℕ) :
    (l.eraseIdx k).map f = (l.map f).eraseIdx k := by
  induction l generalizing k with
  | nil => simp
  | cons a t ih =>
      cases k with
      | zero => simp
      | succ m => simp [ih]

theorem set_getD_self {α : Type} [Inhabited α] (l : List α) (k : ℕ)
    (hk : k < l.length) :
    l.set k (l.getD k default) = l := by
  induction l generalizing k with
  | nil => simp at hk
  | cons a t ih =>
      cases k with
      | zero => simp
      | succ m =>
          simp only [List.getD_cons_succ, List.set_cons_succ, List.cons.injEq, true_and]
          exact ih m (by simpa using hk)

theorem listsum_map_set {α : Type} [Inhabited α] (l : List α) (f : α → ℚ)
    (k : ℕ) (x : α) (hk : k < l.length) :
    ((l.set k x).map f).sum = (l.map f).sum - f (l.getD k default) + f x := by
  induction l generalizing k with
  | nil => simp at hk
  | cons a t ih =>
      cases k with
      | zero =>
          simp only [List.set_cons_zero, List.map_cons, List.sum_cons, List.getD_cons_zero]
          ring
      | succ m =>
          simp only [List.set_cons_succ, List.map_cons, List.sum_cons, List.getD_cons_succ]
          rw [ih m (by simpa using hk)]
          ring

theorem listsum_map_eraseIdx {α : Type} [Inhabited α] (l : List α) (f : α → ℚ)
    (k : ℕ) (hk : k < l.length) :
    ((l.eraseIdx k).map f).sum = (l.map f).sum - f (l.getD k default) := by
  induction l generalizing k with
  | nil => simp at hk
  | cons a t ih =>
      cases k with
      | zero =>
          simp only [List.eraseIdx_cons_zero, List.map_cons, List.sum_cons, List.getD_cons_zero]
          ring
      | succ m =>
          simp only [List.eraseIdx_cons_succ, List.map_cons, List.sum_cons, List.getD_cons_succ]
          rw [ih m (by simpa using hk)]
          ring

theorem merge_momentum_aBig (P : Prims) (i j : ℕ) (sim : Simulation) (g : Body → ℚ)
    (hij : i < j) (hj : j < sim.bodies.length)
    (hm : (sim.bodies.getD j default).mass ≤ (sim.bodies.getD i default).mass)
    (hflag : ∀ bd, g (flagOff bd) = g bd)
    (hkey : g (mergedBodyA P i j sim)
      = g (sim.bodies.getD i default) + g (sim.bodies.getD j default)) :
    ((_merge P i j sim).bodies.map g).sum = (sim.bodies.map g).sum := by
  rw [merge_bodies_aBig P i j sim hm, List.map_map]
  have hco : g ∘ flagOff = g := funext hflag
  rw [hco]
  rw [listsum_map_eraseIdx _ _ j (by simpa using hj)]
  rw [listsum_map_set _ _ i _ (Nat.lt_trans hij hj)]
  have hgj : (sim.bodies.set i (mergedBodyA P i j sim)).getD j default
      = sim.bodies.getD j default := by
    rw [List.getD_eq_getElem _ _ (by simpa using hj), List.getElem_set,
      if_neg (by omega), ← List.getD_eq_getElem _ _ hj]
  rw [hgj, hkey]
  ring

theorem merge_momentum_bBig (P : Prims) (i j : ℕ) (sim : Simulation) (g : Body → ℚ)
    (hij : i < j) (hj : j < sim.bodies.length)
    (hm : ¬ (sim.bodies.getD j default).mass ≤ (sim.bodies.getD i default).mass)
    (hflag : ∀ bd, g (flagOff bd) = g bd)
    (hkey : g (mergedBodyB P i j sim)
      = g (sim.bodies.getD i default) + g (sim.bodies.getD j default)) :
    ((_merge P i j sim).bodies.map g).sum = (sim.bodies.map g).sum := by
  have hi : i < sim.bodies.length := Nat.lt_trans hij hj
  rw [merge_bodies_bBig P i j sim hm, List.map_map]
  have hco : g ∘ flagOff = g := funext hflag
  rw [hco]
  rw [listsum_map_eraseIdx _ _ i (by simpa using hi)]
  rw [listsum_map_set _ _ j _ hj]
  have hgi : (sim.bodies.set j (mergedBodyB P i j sim)).getD i default
      = sim.bodies.getD i default := by
    rw [List.getD_eq_getElem _ _ (by simpa using hi), List.getElem_set,
      if_neg (by omega), ← List.getD_eq_getElem _ _ hi]
  rw [hgi, hkey]
  ring

theorem merge_ids_aBig (P : Prims) (i j : ℕ) (sim : Simulation)
    (hij : i < j) (hj : j < sim.bodies.length)
    (hm : (sim.bodies.getD j default).mass ≤ (sim.bodies.getD i default).mass) :
    (_merge P i j sim).bodies.map (fun c => c.id)
      = (sim.bodies.map (fun c => c.id)).eraseIdx j := by
  have hi : i < sim.bodies.length := Nat.lt_trans hij hj
  rw [merge_bodies_aBig P i j sim hm, List.map_map]
  have hco : (fun c => c.id) ∘ flagOff = (fun c : Body => c.id) := rfl
  rw [hco, map_eraseIdx_comm, List.map_set]
  have hgi : (mergedBodyA P i j sim).id
      = (sim.bodies.map (fun c : Body => c.id)).getD i default := by
    rw [List.getD_eq_getElem _ _ (by simpa using hi), List.getElem_map,
      ← List.getD_eq_getElem _ _ hi]
    rfl
  rw [hgi, set_getD_self _ _ (by simpa using hi)]

theorem merge_ids_bBig (P : Prims) (i j : ℕ) (sim : Simulation)
    (hij : i < j) (hj : j < sim.bodies.length)
    (hm : ¬ (sim.bodies.getD j default).mass ≤ (sim.bodies.getD i default).mass) :
    (_merge P i j sim).bodies.map (fun c => c.id)
      = (sim.bodies.map (fun c => c.id)).eraseIdx i := by
  have hi : i < sim.bodies.length := Nat.lt_trans hij hj
  rw [merge_bodies_bBig P i j sim hm, List.map_map]
  have hco : (fun c => c.id) ∘ flagOff = (fun c : Body => c.id) := rfl
  rw [hco, map_eraseIdx_comm, List.map_set]
  have hgj : (mergedBodyB P i j sim).id
      = (sim.bodies.map (fun c : Body => c.id)).getD j default := by
    rw [List.getD_eq_getElem _ _ (by simpa using hj), List.getElem_map,
      ← List.getD_eq_getElem _ _ hj]
    rfl
  rw [hgj, set_getD_self _ _ (by simpa using hj)]

/-- The position of the merge survivor: the strictly heavier body's
index, i.e. `i` when `a` survives, else `j - 1` (the heavier body at
`j` shifts down one slot when index `i` is excised). -/
def survivorIdx (sim : Simulation) (i j : ℕ) : ℕ :=
  if (bodyAt sim j).mass < (bodyAt sim i).mass then i else j - 1

/-- Claim C3: A merge of the bodies at `i < j` (distinct positive
masses): the strictly heavier body survives; its mass is the exact
sum, position/velocity are the mass-weighted averages (so `Σ m·v` over
the whole collection is unchanged), collision radius is the larger
pre-merge radius × 1.06, display radius is `ceil ∘ cbrt` of the sum of
cubes, external force is the component-wise sum, the trail is cleared,
and the other body is removed from the collection. -/
theorem merge_semantics (P : Prims) (i j : ℕ) (sim : Simulation)
    (hij : i < j) (hj : j < sim.bodies.length)
    (hma : 0 < (bodyAt sim i).mass) (hmb : 0 < (bodyAt sim j).mass)
    (hne : ¬ (bodyAt sim i).mass = (bodyAt sim j).mass) :
    (bodyAt (_merge P i j sim) (survivorIdx sim i j)).id
        = (if (bodyAt sim j).mass < (bodyAt sim i).mass
            then (bodyAt sim i).id else (bodyAt sim j).id)
  ∧ (bodyAt (_merge P i j sim) (survivorIdx sim i j)).mass
        = (bodyAt sim i).mass + (bodyAt sim j).mass
  ∧ (bodyAt (_merge P i j sim) (survivorIdx sim i j)).x
        = ((bodyAt sim i).mass * (bodyAt sim i).x
            + (bodyAt sim j).mass * (bodyAt sim j).x)
          / ((bodyAt sim i).mass + (bodyAt sim j).mass)
  ∧ (bodyAt (_merge P i j sim) (survivorIdx sim i j)).y
        = ((bodyAt sim i).mass * (bodyAt sim i).y
            + (bodyAt sim j).mass * (bodyAt sim j).y)
          / ((bodyAt sim i).mass + (bodyAt sim j).mass)
  ∧ (bodyAt (_merge P i j sim) (survivorIdx sim i j)).vx
        = ((bodyAt sim i).mass * (bodyAt sim i).vx
            + (bodyAt sim j).mass * (bodyAt sim j).vx)
          / ((bodyAt sim i).mass + (bodyAt sim j).mass)
  ∧ (bodyAt (_merge P i j sim) (survivorIdx sim i j)).vy
        = ((bodyAt sim i).mass * (bodyAt sim i).vy
            + (bodyAt sim j).mass * (bodyAt sim j).vy)
          / ((bodyAt sim i).mass + (bodyAt sim j).mass)
  ∧ ((_merge P i j sim).bodies.map (fun c => c.mass * c.vx)).sum
        = (sim.bodies.map (fun c => c.mass * c.vx)).sum
  ∧ ((_merge P i j sim).bodies.map (fun c => c.mass * c.vy)).sum
        = (sim.bodies.map (fun c => c.mass * c.vy)).sum
  ∧ (bodyAt (_merge P i j sim) (survivorIdx sim i j)).physRadius
        = max (bodyAt sim i).physRadius (bodyAt sim j).physRadius * (106 / 100)
  ∧ (bodyAt (_merge P i j sim) (survivorIdx sim i j)).radius
        = P.ceilCbrt ((bodyAt sim i).radius ^ 3 + (bodyAt sim j).radius ^ 3)
  ∧ (bodyAt (_merge P i j sim) (survivorIdx sim i j)).fx_ext
        = (bodyAt sim i).fx_ext + (bodyAt sim j).fx_ext
  ∧ (bodyAt (_merge P i j sim) (survivorIdx sim i j)).fy_ext
        = (bodyAt sim i).fy_ext + (bodyAt sim j).fy_ext
  ∧ (bodyAt (_merge P i j sim) (survivorIdx sim i j)).trail = []
  ∧ (_merge P i j sim).bodies.length = sim.bodies.length - 1
  ∧ (_merge P i j sim).bodies.map (fun c => c.id)
        = (sim.bodies.map (fun c => c.id)).eraseIdx
            (if (bodyAt sim j).mass < (bodyAt sim i).mass then j else i) := by
  have hMt : (sim.bodies.getD i default).mass + (sim.bodies.getD j default).mass ≠ 0 := by
    simp only [bodyAt] at hma hmb
    linarith
  by_cases hm : (sim.bodies.getD j default).mass ≤ (sim.bodies.getD i default).mass
  · have hlt : (bodyAt sim j).mass < (bodyAt sim i).mass :=
      lt_of_le_of_ne (by simpa [bodyAt] using hm) (fun h => hne h.symm)
    have hsurv : survivorIdx sim i j = i := by
      rw [survivorIdx, if_pos hlt]
    have hS : bodyAt (_merge P i j sim) (survivorIdx sim i j)
        = flagOff (mergedBodyA P i j sim) := by
      rw [hsurv]
      simp only [bodyAt]
      exact merge_getD_aBig P i j sim hij hj hm
    have hkx : (fun c : Body => c.mass * c.vx) (mergedBodyA P i j sim)
        = (fun c : Body => c.mass * c.vx) (sim.bodies.getD i default)
          + (fun c : Body => c.mass * c.vx) (sim.bodies.getD j default) := by
      show (mergedBodyA P i j sim).mass * (mergedBodyA P i j sim).vx = _
      simp only [mergedBodyA]
      exact mul_div_cancel₀ _ hMt
    have hky : (fun c : Body => c.mass * c.vy) (mergedBodyA P i j sim)
        = (fun c : Body => c.mass * c.vy) (sim.bodies.getD i default)
          + (fun c : Body => c.mass * c.vy) (sim.bodies.getD j default) := by
      show (mergedBodyA P i j sim).mass * (mergedBodyA P i j sim).vy = _
      simp only [mergedBodyA]
      exact mul_div_cancel₀ _ hMt
    refine ⟨?_, ?_, ?_, ?_, ?_, ?_, ?_, ?_, ?_, ?_, ?_, ?_, ?_, ?_, ?_⟩
    · rw [hS, if_pos hlt]
      rfl
    · rw [hS]
      rfl
    · rw [hS]
      rfl
    · rw [hS]
      rfl
    · rw [hS]
      rfl
    · rw [hS]
      rfl
    · exact merge_momentum_aBig P i j sim _ hij hj hm (fun bd => rfl) hkx
    · exact merge_momentum_aBig P i j sim _ hij hj hm (fun bd => rfl) hky
    · rw [hS]
      rfl
    · rw [hS]
      rfl
    · rw [hS]
      rfl
    · rw [hS]
      rfl
    · rw [hS]
      rfl
    · exact merge_length hij hj
    · rw [if_pos hlt]
      exact merge_ids_aBig P i j sim hij hj hm
  · have hlt : (bodyAt sim i).mass < (bodyAt sim j).mass := by
      simpa [bodyAt] using not_le.mp hm
    have hnlt : ¬ (bodyAt sim j).mass < (bodyAt sim i).mass := lt_asymm hlt
    have hsurv : survivorIdx sim i j = j - 1 := by
      rw [survivorIdx, if_neg hnlt]
    have hS : bodyAt (_merge P i j sim) (survivorIdx sim i j)
        = flagOff (mergedBodyB P i j sim) := by
      rw [hsurv]
      simp only [bodyAt]
      exact merge_getD_bBig P i j sim hij hj hm
    have hkx : (fun c : Body => c.mass * c.vx) (mergedBodyB P i j sim)
        = (fun c : Body => c.mass * c.vx) (sim.bodies.getD i default)
          + (fun c : Body => c.mass * c.vx) (sim.bodies.getD j default) := by
      show (mergedBodyB P i j sim).mass * (mergedBodyB P i j sim).vx = _
      simp only [mergedBodyB]
      exact mul_div_cancel₀ _ hMt
    have hky : (fun c : Body => c.mass * c.vy) (mergedBodyB P i j sim)
        = (fun c : Body => c.mass * c.vy) (sim.bodies.getD i default)
          + (fun c : Body => c.mass * c.vy) (sim.bodies.getD j default) := by
      show (mergedBodyB P i j sim).mass * (mergedBodyB P i j sim).vy = _
      simp only [mergedBodyB]
      exact mul_div_cancel₀ _ hMt
    refine ⟨?_, ?_, ?_, ?_, ?_, ?_, ?_, ?_, ?_, ?_, ?_, ?_, ?_, ?_, ?_⟩
    · rw [hS, if_neg hnlt]
      rfl
    · rw [hS]
      rfl
    · rw [hS]
      rfl
    · rw [hS]
      rfl
    · rw [hS]
      rfl
    · rw [hS]
      rfl
    · exact merge_momentum_bBig P i j sim _ hij hj hm (fun bd => rfl) hkx
    · exact merge_momentum_bBig P i j sim _ hij hj hm (fun bd => rfl) hky
    · rw [hS]
      show max _ _ * (106 / 100) = _
      rfl
    · rw [hS]
      rfl
    · rw [hS]
      show (bodyAt sim j).fx_ext + (bodyAt sim i).fx_ext = _
      ring
    · rw [hS]
      show (bodyAt sim j).fy_ext + (bodyAt sim i).fy_ext = _
      ring
    · rw [hS]
      rfl
    · exact merge_length hij hj
    · rw [if_neg hnlt]
      exact merge_ids_bBig P i j sim hij hj hm

/-- Claim C10: When the two bodies picked for a merge have exactly equal
masses, the survivor is the lower-index body `a` (the source compares
`a.mass >= b.mass`), and the body at index `j` is the one removed. -/
theorem merge_tie_lower_index (P : Prims) (i j : ℕ) (sim : Simulation)
    (hij : i < j) (hj : j < sim.bodies.length)
    (heq : (bodyAt sim i).mass = (bodyAt sim j).mass) :
    (bodyAt (_merge P i j sim) i).id = (bodyAt sim i).id
  ∧ (_merge P i j sim).bodies.map (fun c => c.id)
      = (sim.bodies.map (fun c => c.id)).eraseIdx j := by
  have hm : (sim.bodies.getD j default).mass ≤ (sim.bodies.getD i default).mass := by
    simp only [bodyAt] at heq
    exact le_of_eq heq.symm
  constructor
  · have hS := merge_getD_aBig P i j sim hij hj hm
    simp only [bodyAt]
    rw [hS]
    rfl
  · exact merge_ids_aBig P i j sim hij hj hm

/-- Two equal-mass bodies (for the tie-break witness). -/
def wSimTie : Simulation :=
  { Simulation.init with
    bodies := [wA, mkBody 3 "C" 1 0 0 0 1 1 "w"], softening := 1 }

/-- Witness for `merge_semantics` at a concrete two-body state. -/
theorem merge_semantics_w :
    ((0 : ℕ) < 1 ∧ 1 < wSim0.bodies.length
      ∧ 0 < (bodyAt wSim0 0).mass ∧ 0 < (bodyAt wSim0 1).mass
      ∧ ¬ (bodyAt wSim0 0).mass = (bodyAt wSim0 1).mass)
    ∧ ((bodyAt (_merge wP 0 1 wSim0) (survivorIdx wSim0 0 1)).id
          = (if (bodyAt wSim0 1).mass < (bodyAt wSim0 0).mass
              then (bodyAt wSim0 0).id else (bodyAt wSim0 1).id)
      ∧ (bodyAt (_merge wP 0 1 wSim0) (survivorIdx wSim0 0 1)).mass
          = (bodyAt wSim0 0).mass + (bodyAt wSim0 1).mass
      ∧ (bodyAt (_merge wP 0 1 wSim0) (survivorIdx wSim0 0 1)).x
          = ((bodyAt wSim0 0).mass * (bodyAt wSim0 0).x
              + (bodyAt wSim0 1).mass * (bodyAt wSim0 1).x)
            / ((bodyAt wSim0 0).mass + (bodyAt wSim0 1).mass)
      ∧ (bodyAt (_merge wP 0 1 wSim0) (survivorIdx wSim0 0 1)).y
          = ((bodyAt wSim0 0).mass * (bodyAt wSim0 0).y
              + (bodyAt wSim0 1).mass * (bodyAt wSim0 1).y)
            / ((bodyAt wSim0 0).mass + (bodyAt wSim0 1).mass)
      ∧ (bodyAt (_merge wP 0 1 wSim0) (survivorIdx wSim0 0 1)).vx
          = ((bodyAt wSim0 0).mass * (bodyAt wSim0 0).vx
              + (bodyAt wSim0 1).mass * (bodyAt wSim0 1).vx)
            / ((bodyAt wSim0 0).mass + (bodyAt wSim0 1).mass)
      ∧ (bodyAt (_merge wP 0 1 wSim0) (survivorIdx wSim0 0 1)).vy
          = ((bodyAt wSim0 0).mass * (bodyAt wSim0 0).vy
              + (bodyAt wSim0 1).mass * (bodyAt wSim0 1).vy)
            / ((bodyAt wSim0 0).mass + (bodyAt wSim0 1).mass)
      ∧ ((_merge wP 0 1 wSim0).bodies.map (fun c => c.mass * c.vx)).sum
          = (wSim0.bodies.map (fun c => c.mass * c.vx)).sum
      ∧ ((_merge wP 0 1 wSim0).bodies.map (fun c => c.mass * c.vy)).sum
          = (wSim0.bodies.map (fun c => c.mass * c.vy)).sum
      ∧ (bodyAt (_merge wP 0 1 wSim0) (survivorIdx wSim0 0 1)).physRadius
          = max (bodyAt wSim0 0).physRadius (bodyAt wSim0 1).physRadius * (106 / 100)
      ∧ (bodyAt (_merge wP 0 1 wSim0) (survivorIdx wSim0 0 1)).radius
          = wP.ceilCbrt ((bodyAt wSim0 0).radius ^ 3 + (bodyAt wSim0 1).radius ^ 3)
      ∧ (bodyAt (_merge wP 0 1 wSim0) (survivorIdx wSim0 0 1)).fx_ext
          = (bodyAt wSim0 0).fx_ext + (bodyAt wSim0 1).fx_ext
      ∧ (bodyAt (_merge wP 0 1 wSim0) (survivorIdx wSim0 0 1)).fy_ext
          = (bodyAt wSim0 0).fy_ext + (bodyAt wSim0 1).fy_ext
      ∧ (bodyAt (_merge wP 0 1 wSim0) (survivorIdx wSim0 0 1)).trail = []
      ∧ (_merge wP 0 1 wSim0).bodies.length = wSim0.bodies.length - 1
      ∧ (_merge wP 0 1 wSim0).bodies.map (fun c => c.id)
          = (wSim0.bodies.map (fun c => c.id)).eraseIdx
              (if (bodyAt wSim0 1).mass < (bodyAt wSim0 0).mass then 1 else 0)) :=
  ⟨⟨by decide, by decide, by decide, by decide, by decide⟩,
    merge_semantics wP 0 1 wSim0 (by decide) (by decide) (by decide) (by decide) (by decide)⟩

/-- Witness for `merge_tie_lower_index` at a concrete equal-mass pair. -/
theorem merge_tie_lower_index_w :
    ((0 : ℕ) < 1 ∧ 1 < wSimTie.bodies.length
      ∧ (bodyAt wSimTie 0).mass = (bodyAt wSimTie 1).mass)
    ∧ ((bodyAt (_merge wP 0 1 wSimTie) 0).id = (bodyAt wSimTie 0).id
      ∧ (_merge wP 0 1 wSimTie).bodies.map (fun c => c.id)
          = (wSimTie.bodies.map (fun c => c.id)).eraseIdx 1) :=
  ⟨⟨by decide, by decide, by decide⟩,
    merge_tie_lower_index wP 0 1 wSimTie (by decide) (by decide) (by decide)⟩

/-! ### The straddled half-velocity cache is equivalent to textbook leapfrog -/

theorem list_eq_of_getD {α : Type} [Inhabited α] (l1 l2 : List α)
    (hlen : l1.length = l2.length)
    (h : ∀ k, k < l1.length → l1.getD k default = l2.getD k default) :
    l1 = l2 := by
  apply List.ext_getElem hlen
  intro k h1 h2
  have hd := h k h1
  rwa [List.getD_eq_getElem _ _ h1, List.getD_eq_getElem _ _ h2] at hd

theorem sim_eq_of_bodies {s : Simulation} {L : List Body} (h : L = s.bodies) :
    ({ s with bodies := L } : Simulation) = s := by
  rw [h]

theorem getD_map_body (F : Body → Body) (l : List Body) (k : ℕ) (hk : k < l.length) :
    (l.map F).getD k default = F (l.getD k default) := by
  rw [List.getD_eq_getElem _ _ (by simpa using hk), List.getElem_map,
    List.getD_eq_getElem _ _ hk]

theorem body_update_self {b : Body} {vax vay vfm : ℚ}
    (h1 : b.ax = vax) (h2 : b.ay = vay) (h3 : b.forceMag = vfm) :
    ({ b with ax := vax, ay := vay, forceMag := vfm } : Body) = b := by
  rw [← h1, ← h2, ← h3]

theorem body_halfkick_self {b : Body} {v1 v2 : ℚ}
    (h1 : b.vxh = v1) (h2 : b.vyh = v2) (h3 : b.leapReady = true) :
    ({ b with vxh := v1, vyh := v2, leapReady := true } : Body) = b := by
  rw [← h1, ← h2, ← h3]

/-- The body fields the force accumulator reads. -/
def readProj (b : Body) : ℚ × ℚ × ℚ × ℚ × ℚ := (b.x, b.y, b.mass, b.fx_ext, b.fy_ext)

/-- The accumulation tables depend only on the read fields of the
bodies (positions, masses, external forces). -/
theorem accTables_congr (P : Prims) (eps2 : ℚ) (bs1 bs2 : List Body)
    (hlen : bs1.length = bs2.length)
    (hread : ∀ k, readProj (bs1.getD k default) = readProj (bs2.getD k default)) :
    accTables P eps2 bs1 = accTables P eps2 bs2 := by
  have hx : ∀ k, (bs1.getD k default).x = (bs2.getD k default).x :=
    fun k => congrArg (fun t => t.1) (hread k)
  have hy : ∀ k, (bs1.getD k default).y = (bs2.getD k default).y :=
    fun k => congrArg (fun t => t.2.1) (hread k)
  have hm : ∀ k, (bs1.getD k default).mass = (bs2.getD k default).mass :=
    fun k => congrArg (fun t => t.2.2.1) (hread k)
  have hstep : accumPair P eps2 bs1 = accumPair P eps2 bs2 := by
    funext acc p
    simp only [accumPair, hx, hy, hm]
  rw [accTables, accTables, hlen, hstep]

theorem acc_as_update (P : Prims) (X : Simulation) :
    _accumulateAccels P X = { X with bodies := (_accumulateAccels P X).bodies } := rfl

/-- Read fields after a kick of freshly accumulated accelerations are
the original read fields. -/
theorem kickAcc_readProj (P : Prims) (h : ℚ) (S : Simulation) (k : ℕ) :
    readProj ((kick h (_accumulateAccels P S)).bodies.getD k default)
      = readProj (S.bodies.getD k default) := by
  by_cases hk : k < S.bodies.length
  · have hka : k < (_accumulateAccels P S).bodies.length := by
      simpa [accumulateAccels_length] using hk
    have h1 : (kick h (_accumulateAccels P S)).bodies.getD k default
        = kickF h ((_accumulateAccels P S).bodies.getD k default) :=
      getD_map_body _ _ k hka
    rw [h1, accumulateAccels_getD P S k hk]
    rfl
  · have hlen1 : (kick h (_accumulateAccels P S)).bodies.length = S.bodies.length := by
      simp [kick, accumulateAccels_length]
    rw [List.getD_eq_default _ _ (by omega : (kick h (_accumulateAccels P S)).bodies.length ≤ k),
      List.getD_eq_default _ _ (by omega : S.bodies.length ≤ k)]

theorem kick_length (h : ℚ) (X : Simulation) :
    (kick h X).bodies.length = X.bodies.length := by
  simp [kick]

/-- Re-running the force accumulator right after a kick changes
nothing: the kick leaves all read fields and all accumulator-written
fields alone, so the recomputation writes back the stored values. -/
theorem acc_idem_after (P : Prims) (h : ℚ) (S : Simulation) :
    _accumulateAccels P (kick h (_accumulateAccels P S))
      = kick h (_accumulateAccels P S) := by
  rw [acc_as_update P (kick h (_accumulateAccels P S))]
  apply sim_eq_of_bodies
  have hsoft : (kick h (_accumulateAccels P S)).softening = S.softening := rfl
  have hlen : (kick h (_accumulateAccels P S)).bodies.length = S.bodies.length := by
    simp [kick, accumulateAccels_length]
  have hacc : accTables P
        ((kick h (_accumulateAccels P S)).softening
          * (kick h (_accumulateAccels P S)).softening)
        (kick h (_accumulateAccels P S)).bodies
      = accTables P (S.softening * S.softening) S.bodies := by
    rw [hsoft]
    exact accTables_congr P _ _ _ hlen (kickAcc_readProj P h S)
  apply list_eq_of_getD
  · rw [accumulateAccels_length]
  · intro k hk
    have hkT : k < (kick h (_accumulateAccels P S)).bodies.length := by
      simpa [accumulateAccels_length] using hk
    have hkS : k < S.bodies.length := by omega
    have hka : k < (_accumulateAccels P S).bodies.length := by
      simpa [accumulateAccels_length] using hkS
    have hTk : (kick h (_accumulateAccels P S)).bodies.getD k default
        = kickF h ((_accumulateAccels P S).bodies.getD k default) :=
      getD_map_body _ _ k hka
    rw [accumulateAccels_getD P (kick h (_accumulateAccels P S)) k hkT, hacc, hTk,
      accumulateAccels_getD P S k hkS]
    rfl

/-- After a kick of freshly accumulated accelerations of an all-ready
state, the half-kick write-back changes nothing: the eager precompute
already stored exactly `velocity + 0.5·acceleration·h`. -/
theorem halfKick_fix (P : Prims) (h : ℚ) (S : Simulation)
    (hS : ∀ b ∈ S.bodies, b.leapReady = true) :
    halfKick h (kick h (_accumulateAccels P S)) = kick h (_accumulateAccels P S) := by
  have hup : halfKick h (kick h (_accumulateAccels P S))
      = { kick h (_accumulateAccels P S) with
          bodies := (kick h (_accumulateAccels P S)).bodies.map (halfKickF h) } := rfl
  rw [hup]
  apply sim_eq_of_bodies
  apply list_eq_of_getD
  · simp
  · intro k hk
    have hkT : k < (kick h (_accumulateAccels P S)).bodies.length := by simpa using hk
    have hkS : k < S.bodies.length := by
      simpa [kick, accumulateAccels_length] using hkT
    have hka : k < (_accumulateAccels P S).bodies.length := by
      simpa [accumulateAccels_length] using hkS
    rw [getD_map_body _ _ k hkT]
    have hTk : (kick h (_accumulateAccels P S)).bodies.getD k default
        = kickF h ((_accumulateAccels P S).bodies.getD k default) :=
      getD_map_body _ _ k hka
    rw [hTk]
    have hflag : (kickF h ((_accumulateAccels P S).bodies.getD k default)).leapReady = true := by
      have hmem : S.bodies.getD k default ∈ S.bodies := by
        rw [List.getD_eq_getElem _ _ hkS]
        exact List.getElem_mem hkS
      have h2 : ((_accumulateAccels P S).bodies.getD k default).leapReady
          = (S.bodies.getD k default).leapReady := by
        rw [accumulateAccels_getD P S k hkS]
      show ((_accumulateAccels P S).bodies.getD k default).leapReady = true
      rw [h2]
      exact hS _ hmem
    exact body_halfkick_self rfl rfl hflag

/-- With all readiness flags clear, one cached sub-step is literally
one textbook sub-step. -/
theorem lazyStep_eq_textbook_of_fresh (P : Prims) (h : ℚ) (T : Simulation)
    (hflags : ∀ b ∈ T.bodies, b.leapReady = false) :
    _leapfrogStep P h T = textbookStep P h T := by
  by_cases hbe : T.bodies = []
  · have hacc : _accumulateAccels P T = T := by
      rw [acc_as_update P T]
      apply sim_eq_of_bodies
      apply list_eq_of_getD
      · rw [accumulateAccels_length]
      · intro k hk
        rw [accumulateAccels_length, hbe] at hk
        simp at hk
    have hhk : halfKick h T = T := by
      have : halfKick h T = { T with bodies := T.bodies.map (halfKickF h) } := rfl
      rw [this]
      apply sim_eq_of_bodies
      rw [hbe]
      rfl
    rw [_leapfrogStep, textbookStep, hacc, hhk, ite_self]
  · have hall : T.bodies.all (fun b => b.leapReady) = false := by
      obtain ⟨b0, hb0⟩ := List.exists_mem_of_ne_nil T.bodies hbe
      rw [List.all_eq_false]
      exact ⟨b0, hb0, by simp [hflags b0 hb0]⟩
    rw [_leapfrogStep, textbookStep, if_neg (by simp [hall])]

/-- Once the cache invariant holds (the stored half-velocities are
exactly what a fresh recomputation would produce), a cached sub-step
equals a textbook sub-step. -/
theorem lazyStep_eq_textbook_of_fix (P : Prims) (h : ℚ) (T : Simulation)
    (hfix : halfKick h (_accumulateAccels P T) = T) :
    _leapfrogStep P h T = textbookStep P h T := by
  have hall : T.bodies.all (fun b => b.leapReady) = true := by
    rw [List.all_eq_true]
    intro x hx
    rw [← hfix] at hx
    have : x ∈ ((_accumulateAccels P T).bodies.map (halfKickF h)) := hx
    rw [List.mem_map] at this
    obtain ⟨bd, _, rfl⟩ := this
    rfl
  rw [_leapfrogStep, textbookStep, if_pos hall, hfix]

theorem allReady_drift_halfKick (P : Prims) (h : ℚ) (T : Simulation) :
    ∀ b ∈ (drift h (halfKick h (_accumulateAccels P T))).bodies, b.leapReady = true := by
  intro b hb
  have : b ∈ ((_accumulateAccels P T).bodies.map (halfKickF h)).map (driftF h) := hb
  rw [List.mem_map] at this
  obtain ⟨c, hc, rfl⟩ := this
  rw [List.mem_map] at hc
  obtain ⟨d, _, rfl⟩ := hc
  rfl

/-- After any textbook sub-step the cache invariant holds. -/
theorem inv_after_textbook (P : Prims) (h : ℚ) (T : Simulation) :
    halfKick h (_accumulateAccels P (textbookStep P h T)) = textbookStep P h T := by
  rw [textbookStep, acc_idem_after P h (drift h (halfKick h (_accumulateAccels P T)))]
  exact halfKick_fix P h _ (allReady_drift_halfKick P h T)

/-- Iterating the cache-straddled stepper from a fresh (all flags
clear) state produces exactly the same simulation states as iterating
the textbook stepper. -/
theorem leapfrog_equiv_full (P : Prims) (h : ℚ) (sim : Simulation)
    (hflags : ∀ b ∈ sim.bodies, b.leapReady = false) (n : ℕ) :
    (_leapfrogStep P h)^[n] sim = (textbookStep P h)^[n] sim := by
  induction n with
  | zero => rfl
  | succ m ih =>
      rw [Function.iterate_succ_apply' (_leapfrogStep P h) m sim,
        Function.iterate_succ_apply' (textbookStep P h) m sim, ih]
      cases m with
      | zero =>
          simp only [Function.iterate_zero_apply]
          exact lazyStep_eq_textbook_of_fresh P h sim hflags
      | succ l =>
          apply lazyStep_eq_textbook_of_fix
          rw [Function.iterate_succ_apply' (textbookStep P h) l sim]
          exact inv_after_textbook P h _

/-- Claim C4: From any initial body state (readiness flags clear, as the
`Body` constructor leaves them), any number of equal sub-steps of the
cache-straddled scheme produces exactly the same positions and
velocities as textbook kick-drift-kick leapfrog that recomputes the
half-velocities from freshly accumulated accelerations at the start of
every sub-step. -/
theorem leapfrog_cache_equiv (P : Prims) (h : ℚ) (sim : Simulation)
    (hflags : ∀ b ∈ sim.bodies, b.leapReady = false) (n : ℕ) :
    ((_leapfrogStep P h)^[n] sim).bodies.map (fun b => (b.x, b.y, b.vx, b.vy))
      = ((textbookStep P h)^[n] sim).bodies.map (fun b => (b.x, b.y, b.vx, b.vy)) := by
  rw [leapfrog_equiv_full P h sim hflags n]

/-- Witness for `leapfrog_cache_equiv` at a concrete two-body state. -/
theorem leapfrog_cache_equiv_w :
    (∀ b ∈ wSim.bodies, b.leapReady = false)
    ∧ ((_leapfrogStep wP 1)^[2] wSim).bodies.map (fun b => (b.x, b.y, b.vx, b.vy))
        = ((textbookStep wP 1)^[2] wSim).bodies.map (fun b => (b.x, b.y, b.vx, b.vy)) :=
  ⟨by decide, leapfrog_cache_equiv wP 1 wSim (by decide) 2⟩

/-! ### Collision resolution: termination and no remaining overlap -/

theorem pairIndices_mem_intro {n i j : ℕ} (hij : i < j) (hj : j < n) :
    (i, j) ∈ pairIndices n := by
  simp only [pairIndices, List.mem_flatMap, List.mem_map, List.mem_filter, List.mem_range]
  exact ⟨i, by omega, j, ⟨hj, by simpa using hij⟩, rfl⟩

theorem handleMerges_no_overlap_aux (P : Prims) :
    ∀ n (sim : Simulation), sim.bodies.length ≤ n →
      findOverlap P (_handleMerges P sim).bodies = none := by
  intro n
  induction n with
  | zero =>
      intro sim hlen
      rw [_handleMerges.eq_def]
      split
      · rename_i heq
        exact heq
      · rename_i p heq
        have hb := findOverlap_some heq
        omega
  | succ m ih =>
      intro sim hlen
      rw [_handleMerges.eq_def]
      split
      · rename_i heq
        exact heq
      · rename_i p heq
        have hb := findOverlap_some heq
        apply ih
        rw [merge_length hb.1 hb.2]
        omega

theorem handleMerges_length_pos_aux (P : Prims) :
    ∀ n (sim : Simulation), sim.bodies.length ≤ n → 1 ≤ sim.bodies.length →
      1 ≤ (_handleMerges P sim).bodies.length := by
  intro n
  induction n with
  | zero =>
      intro sim hlen hpos
      omega
  | succ m ih =>
      intro sim hlen hpos
      rw [_handleMerges.eq_def]
      split
      · rename_i heq
        exact hpos
      · rename_i p heq
        have hb := findOverlap_some heq
        apply ih
        · rw [merge_length hb.1 hb.2]
          omega
        · rw [merge_length hb.1 hb.2]
          omega

/-- A clean pair scan means no two distinct bodies overlap, in either
index order. -/
theorem no_overlap_pairs (P : Prims) (bs : List Body)
    (hnone : findOverlap P bs = none) :
    ∀ i j, i < bs.length → j < bs.length → ¬ i = j →
      ¬ (P.sqrt (((bs.getD j default).x - (bs.getD i default).x)
            * ((bs.getD j default).x - (bs.getD i default).x)
          + ((bs.getD j default).y - (bs.getD i default).y)
            * ((bs.getD j default).y - (bs.getD i default).y))
        < (bs.getD i default).physRadius + (bs.getD j default).physRadius) := by
  intro i j hi hj hne
  rw [findOverlap, List.find?_eq_none] at hnone
  rcases Nat.lt_or_ge i j with hij | hge
  · have hno := hnone (i, j) (pairIndices_mem_intro hij hj)
    simpa [overlapB] using hno
  · have hij' : j < i := by omega
    have hno := hnone (j, i) (pairIndices_mem_intro hij' hi)
    simp only [overlapB, decide_eq_true_eq] at hno
    have harg : ((bs.getD j default).x - (bs.getD i default).x)
          * ((bs.getD j default).x - (bs.getD i default).x)
        + ((bs.getD j default).y - (bs.getD i default).y)
          * ((bs.getD j default).y - (bs.getD i default).y)
        = ((bs.getD i default).x - (bs.getD j default).x)
          * ((bs.getD i default).x - (bs.getD j default).x)
        + ((bs.getD i default).y - (bs.getD j default).y)
          * ((bs.getD i default).y - (bs.getD j default).y) := by
      ring
    rw [harg, add_comm (bs.getD i default).physRadius (bs.getD j default).physRadius]
    exact hno

/-- Claim C5: `_handleMerges` terminates — each merge strictly decreases
the body count, so at most `N − 1` merges occur and the collection
never empties — and when it returns no two distinct remaining bodies
overlap (the distance between centers is at least the sum of the
collision radii, i.e. the overlap test fails for every pair). -/
theorem handleMerges_terminates_no_overlap (P : Prims) (sim : Simulation)
    (hpos : 1 ≤ sim.bodies.length) :
    1 ≤ (_handleMerges P sim).bodies.length
  ∧ sim.bodies.length - (_handleMerges P sim).bodies.length ≤ sim.bodies.length - 1
  ∧ (∀ i j, i < j → j < sim.bodies.length →
      (_merge P i j sim).bodies.length = sim.bodies.length - 1)
  ∧ (∀ i j, i < (_handleMerges P sim).bodies.length →
      j < (_handleMerges P sim).bodies.length → ¬ i = j →
      ¬ (P.sqrt ((((_handleMerges P sim).bodies.getD j default).x
              - ((_handleMerges P sim).bodies.getD i default).x)
            * (((_handleMerges P sim).bodies.getD j default).x
              - ((_handleMerges P sim).bodies.getD i default).x)
          + (((_handleMerges P sim).bodies.getD j default).y
              - ((_handleMerges P sim).bodies.getD i default).y)
            * (((_handleMerges P sim).bodies.getD j default).y
              - ((_handleMerges P sim).bodies.getD i default).y))
        < ((_handleMerges P sim).bodies.getD i default).physRadius
          + ((_handleMerges P sim).bodies.getD j default).physRadius)) := by
  refine ⟨?_, ?_, ?_, ?_⟩
  · exact handleMerges_length_pos_aux P sim.bodies.length sim le_rfl hpos
  · have := handleMerges_length_pos_aux P sim.bodies.length sim le_rfl hpos
    omega
  · intro i j hij hj
    exact merge_length hij hj
  · exact no_overlap_pairs P _ (handleMerges_no_overlap_aux P sim.bodies.length sim le_rfl)

/-- Witness for `handleMerges_terminates_no_overlap` at a concrete
two-body state. -/
theorem handleMerges_terminates_no_overlap_w :
    1 ≤ wSim0.bodies.length
    ∧ (1 ≤ (_handleMerges wP wSim0).bodies.length
      ∧ wSim0.bodies.length - (_handleMerges wP wSim0).bodies.length
          ≤ wSim0.bodies.length - 1
      ∧ (∀ i j, i < j → j < wSim0.bodies.length →
          (_merge wP i j wSim0).bodies.length = wSim0.bodies.length - 1)
      ∧ (∀ i j, i < (_handleMerges wP wSim0).bodies.length →
          j < (_handleMerges wP wSim0).bodies.length → ¬ i = j →
          ¬ (wP.sqrt ((((_handleMerges wP wSim0).bodies.getD j default).x
                  - ((_handleMerges wP wSim0).bodies.getD i default).x)
                * (((_handleMerges wP wSim0).bodies.getD j default).x
                  - ((_handleMerges wP wSim0).bodies.getD i default).x)
              + (((_handleMerges wP wSim0).bodies.getD j default).y
                  - ((_handleMerges wP wSim0).bodies.getD i default).y)
                * (((_handleMerges wP wSim0).bodies.getD j default).y
                  - ((_handleMerges wP wSim0).bodies.getD i default).y))
            < ((_handleMerges wP wSim0).bodies.getD i default).physRadius
              + ((_handleMerges wP wSim0).bodies.getD j default).physRadius))) :=
  ⟨by decide, handleMerges_terminates_no_overlap wP wSim0 (by decide)⟩

/-! ### Readiness invalidation, mass validation, empty set, removeById -/

/-- Claim C6: Immediately after every operation that changes the body
set — `addBody`, `removeById`, and each `_merge` — every remaining
body's leapfrog readiness flag is cleared. -/
theorem mutations_clear_readiness :
    (∀ (b : Body) (sim : Simulation), ∀ c ∈ (addBody b sim).bodies, c.leapReady = false)
  ∧ (∀ (bid : ℕ) (sim : Simulation), ∀ c ∈ (removeById bid sim).bodies, c.leapReady = false)
  ∧ (∀ (P : Prims) (i j : ℕ) (sim : Simulation),
      ∀ c ∈ (_merge P i j sim).bodies, c.leapReady = false) := by
  refine ⟨?_, ?_, ?_⟩
  · intro b sim c hc
    simp only [addBody, List.mem_map] at hc
    obtain ⟨bd, _, rfl⟩ := hc
    rfl
  · intro bid sim c hc
    simp only [removeById, List.mem_map] at hc
    obtain ⟨bd, _, rfl⟩ := hc
    rfl
  · intro P i j sim c hc
    simp only [_merge, List.mem_map] at hc
    obtain ⟨bd, _, rfl⟩ := hc
    rfl

theorem mem_getD_self {α : Type} [Inhabited α] (l : List α) (k : ℕ)
    (hk : k < l.length) : l.getD k default ∈ l := by
  rw [List.getD_eq_getElem _ _ hk]
  exact List.getElem_mem hk

/-- Witness for `mutations_clear_readiness` at concrete states. -/
theorem mutations_clear_readiness_w :
    ((addBody wB wSim0).bodies.getD 0 default ∈ (addBody wB wSim0).bodies
      ∧ ((addBody wB wSim0).bodies.getD 0 default).leapReady = false)
  ∧ ((removeById 1 wSim0).bodies.getD 0 default ∈ (removeById 1 wSim0).bodies
      ∧ ((removeById 1 wSim0).bodies.getD 0 default).leapReady = false)
  ∧ ((_merge wP 0 1 wSim0).bodies.getD 0 default ∈ (_merge wP 0 1 wSim0).bodies
      ∧ ((_merge wP 0 1 wSim0).bodies.getD 0 default).leapReady = false) :=
  ⟨⟨mem_getD_self _ 0 (by decide),
      mutations_clear_readiness.1 wB wSim0 _ (mem_getD_self _ 0 (by decide))⟩,
   ⟨mem_getD_self _ 0 (by decide),
      mutations_clear_readiness.2.1 1 wSim0 _ (mem_getD_self _ 0 (by decide))⟩,
   ⟨mem_getD_self _ 0 (by decide),
      mutations_clear_readiness.2.2 wP 0 1 wSim0 _ (mem_getD_self _ 0 (by decide))⟩⟩

/-- Claim C7, refuted (the code lacks the claimed guard): the `Body` constructor
stores a non-positive mass unchanged and `addBody` accepts the body,
so a body with `mass = -1` sits in the collection, reachable by the
force accumulator, which divides by mass. -/
theorem body_mass_not_validated :
    (mkBody 7 "X" 0 0 0 0 (-1) 5 "c").mass = -1
  ∧ ((addBody (mkBody 7 "X" 0 0 0 0 (-1) 5 "c") Simulation.init).bodies.getD 0
        default).mass = -1
  ∧ ¬ (0 < ((addBody (mkBody 7 "X" 0 0 0 0 (-1) 5 "c")
        Simulation.init).bodies.getD 0 default).mass) :=
  ⟨rfl, by decide, by decide⟩

/-- Claim C8: With an empty body set, `step` returns the state unchanged
(no field is modified — time and both merge-event queues included) and
the diagnostics return neutral values: zero energies and the origin
with zero mass. -/
theorem empty_step_and_diagnostics (P : Prims) (dt : ℚ) (subSteps : ℕ)
    (sim : Simulation) (h : sim.bodies = []) :
    step P dt subSteps sim = sim
  ∧ kineticEnergy sim = 0
  ∧ potentialEnergy P sim = 0
  ∧ totalEnergy P sim = 0
  ∧ centerOfMass sim = (0, 0, 0) := by
  have hlen : sim.bodies.length = 0 := by
    rw [h]
    rfl
  have hke : kineticEnergy sim = 0 := by
    simp only [kineticEnergy, h]
    rfl
  have hpe : potentialEnergy P sim = 0 := by
    simp only [potentialEnergy, hlen]
    rfl
  refine ⟨?_, hke, hpe, ?_, ?_⟩
  · simp [step, hlen]
  · simp only [totalEnergy, hke, hpe]
    norm_num
  · simp [centerOfMass, h]

/-- Witness for `empty_step_and_diagnostics` on the fresh simulation. -/
theorem empty_step_and_diagnostics_w :
    Simulation.init.bodies = []
    ∧ (step wP 5 3 Simulation.init = Simulation.init
      ∧ kineticEnergy Simulation.init = 0
      ∧ potentialEnergy wP Simulation.init = 0
      ∧ totalEnergy wP Simulation.init = 0
      ∧ centerOfMass Simulation.init = (0, 0, 0)) :=
  ⟨rfl, empty_step_and_diagnostics wP 5 3 Simulation.init rfl⟩

/-- A one-body state whose readiness flag is set (as the integrator
leaves it after a sub-step). -/
def wReadySim : Simulation :=
  { Simulation.init with bodies := [{ wA with leapReady := true }] }

/-- Claim C9, counterexample: for an id matching no body, `removeById`
does NOT leave the whole state unchanged — it still clears every
body's readiness flag. -/
theorem removeById_absent_not_noop :
    (∀ b ∈ wReadySim.bodies, ¬ b.id = 99)
  ∧ ¬ (removeById 99 wReadySim = wReadySim) := by
  decide

/-- Claim C9, amended: for an id matching no body, `removeById` raises
no error and leaves the body collection unchanged except that every
body's readiness flag is cleared. -/
theorem removeById_absent_clears_flags_only (bid : ℕ) (sim : Simulation)
    (habs : ∀ b ∈ sim.bodies, ¬ b.id = bid) :
    removeById bid sim = { sim with bodies := sim.bodies.map flagOff } := by
  have hfil : sim.bodies.filter (fun b => decide (¬ b.id = bid)) = sim.bodies :=
    List.filter_eq_self.mpr (fun a ha => decide_eq_true (habs a ha))
  show { sim with bodies := (sim.bodies.filter (fun b : Body => decide (¬ b.id = bid))).map flagOff } = _
  rw [hfil]

/-- Witness for `removeById_absent_clears_flags_only`. -/
theorem removeById_absent_clears_flags_only_w :
    (∀ b ∈ wReadySim.bodies, ¬ b.id = 99)
    ∧ removeById 99 wReadySim
        = { wReadySim with bodies := wReadySim.bodies.map flagOff } :=
  ⟨by decide, removeById_absent_clears_flags_only 99 wReadySim (by decide)⟩

end PlanetSim
